import Mathlib

/-!
Verification of the time-series regularization and import-job pipeline of the
forecast_poc repository.

The repository consists of two notebooks:
* `1. Validating_and_Importing_Target_Time_Series_Data.ipynb` (target series), and
* the related-series notebook (`src/unnamed/part_000`).

The pipeline steps embedded here, each modelled after the pandas operation the
notebooks call:
* `drop_duplicates`    — `target_df.set_index('date_time'); target_df.drop_duplicates(keep='first')`.
  pandas `DataFrame.drop_duplicates` with no `subset` compares the non-index
  columns only (the timestamp index is ignored) and keeps the first occurrence.
* `date_range`         — `pd.date_range(start, end, freq)`: the canonical axis.
* `outerJoin`          — `full_df.join(target_df, how='outer')` where `full_df`
  has the axis as index and no columns: the result is indexed by the sorted
  union of the axis and the data's timestamps; a timestamp carrying k > 0 data
  rows contributes those k rows in order, an axis-only timestamp contributes
  one all-NaN row.
* `replaceEmpty`       — `.replace('', np.nan)` (related notebook, cell 4).
* `ffill`              — `.ffill()`: per column, each NaN cell takes the most
  recent preceding non-NaN cell of the same column.
* `locFrom`            — `.loc[t0:]` on a sorted index.
* `to_csv`             — `.to_csv(path, header=False)`: comma separator, no
  header line, index (timestamp) written first, NaN written as empty string.

Timestamps are modelled as natural numbers (hours since an arbitrary origin);
cells are `na` (NaN), strings, or integers.
-/

/-- A cell of a data frame: NaN, a string value, or a numeric value. -/
inductive Cell where
  | na : Cell
  | str : String → Cell
  | num : Int → Cell
deriving DecidableEq, Repr

/-- Timestamps: hours since an arbitrary origin. -/
abbrev Timestamp := Nat

/-- A data-frame row: the non-index cells in column order. -/
abbrev Row := List Cell

/-- A data frame with a timestamp index: list of (index value, row). -/
abbrev Frame := List (Timestamp × Row)

/-- Helper for `drop_duplicates`: `seen` is the set of row-value tuples already
    kept.  A row is dropped iff its full tuple of column values was seen before;
    the timestamp index is not consulted (pandas `drop_duplicates` semantics). -/
def dropDuplicatesAux : List Row → Frame → Frame
  | _, [] => []
  | seen, (t, r) :: rest =>
    if r ∈ seen then dropDuplicatesAux seen rest
    else (t, r) :: dropDuplicatesAux (r :: seen) rest

/-- `df.drop_duplicates(keep='first')` on a frame whose index is the timestamp:
    keeps a row iff no earlier row has the identical tuple of column values. -/
def drop_duplicates (df : Frame) : Frame := dropDuplicatesAux [] df

/-- `pd.date_range(start, stop, freq)`: `start, start+freq, …` up to the last
    point `≤ stop`; empty when `start > stop`. -/
def date_range (start stop freq : Nat) : List Timestamp :=
  if stop < start then []
  else (List.range ((stop - start) / freq + 1)).map (fun i => start + i * freq)

/-- Insert a timestamp into a sorted duplicate-free list, keeping it sorted
    and duplicate-free. -/
def insertSorted (t : Timestamp) : List Timestamp → List Timestamp
  | [] => [t]
  | u :: us =>
    if t < u then t :: u :: us
    else if t = u then u :: us
    else u :: insertSorted t us

/-- Sorted duplicate-free list of all timestamps occurring in the input. -/
def sortedUnion (ts : List Timestamp) : List Timestamp :=
  ts.foldr insertSorted []

/-- The rows the outer join emits at timestamp `t`: the data rows carrying `t`
    (in their original order) if any, else one all-NaN filler row of the
    frame's width. -/
def joinRow (df : Frame) (width : Nat) (t : Timestamp) : Frame :=
  match df.filter (fun p => p.1 = t) with
  | [] => [(t, List.replicate width Cell.na)]
  | rows => rows

/-- `full_df.join(df, how='outer')` where `full_df` is indexed by `axis` and has
    no columns, and `df` has `width` columns: for every timestamp of the sorted
    union of `axis` and `df`'s index, emit `df`'s rows at that timestamp (in
    order) if any, else one row of NaNs. -/
def outerJoin (axis : List Timestamp) (df : Frame) (width : Nat) : Frame :=
  (sortedUnion (axis ++ df.map Prod.fst)).flatMap (joinRow df width)

/-- `.replace('', np.nan)` on one cell. -/
def replaceEmptyCell (c : Cell) : Cell :=
  if c = Cell.str "" then Cell.na else c

/-- `.replace('', np.nan)` on a frame. -/
def replaceEmpty (df : Frame) : Frame :=
  df.map (fun p => (p.1, p.2.map replaceEmptyCell))

/-- One step of forward fill: a NaN cell takes the running last value. -/
def ffillCell (last c : Cell) : Cell :=
  if c = Cell.na then last else c

/-- Forward fill, carrying `last`, the previous output row. -/
def ffillAux : Row → Frame → Frame
  | _, [] => []
  | last, (t, r) :: rest =>
    let filled := List.zipWith ffillCell last r
    (t, filled) :: ffillAux filled rest

/-- `df.ffill()` on a frame of `width` columns: per column, each NaN cell takes
    the most recent preceding non-NaN value of that column. -/
def ffill (width : Nat) (df : Frame) : Frame :=
  ffillAux (List.replicate width Cell.na) df

/-- `.loc[t0:]` on a frame with sorted index. -/
def locFrom (t0 : Timestamp) (df : Frame) : Frame :=
  df.filter (fun p => t0 ≤ p.1)

/-- The composite Regularizer the spec's §4.1 contract describes, with each
    step's semantics taken from the notebooks: deduplicate
    (notebook 1 cell 12), build the canonical axis (cell 14), outer-join onto
    it (cell 17), replace empty strings by NaN and forward-fill
    (related notebook cell 4). -/
def regularize (raw : Frame) (start stop freq width : Nat) : Frame :=
  ffill width (replaceEmpty (outerJoin (date_range start stop freq) (drop_duplicates raw) width))

/-- The target-series flow of notebook 1 exactly as executed: deduplicate,
    outer-join onto the axis, slice with `.loc[sliceStart:]`.  Cell 32 runs
    `target_df.ffill()` but never assigns the result, so no fill is applied
    to the frame that is written out. -/
def target_flow (raw : Frame) (start stop freq width : Nat) (sliceStart : Timestamp) : Frame :=
  locFrom sliceStart (outerJoin (date_range start stop freq) (drop_duplicates raw) width)

/-- `.to_csv` serialization of one cell: NaN becomes the empty string
    (pandas default `na_rep=''`). -/
def cellToCsv : Cell → String
  | Cell.na => ""
  | Cell.str s => s
  | Cell.num n => toString n

/-- One CSV line: the formatted index value, then the cells, comma-separated. -/
def rowToCsv (ts : String) (r : Row) : String :=
  String.intercalate "," (ts :: r.map cellToCsv)

/-- `df.to_csv(path, header=False)`: one line per row, no header line, the
    index serialized first on each line. -/
def to_csv (fmt : Timestamp → String) (df : Frame) : List String :=
  df.map (fun p => rowToCsv (fmt p.1) p.2)

/-! ## Import job poll loop

Notebook 1 cell 68 / related notebook cell 22:
```
while True:
    dataImportStatus = forecast.describe_dataset_import_job(...)['Status']
    print(dataImportStatus)
    if dataImportStatus != 'ACTIVE' and dataImportStatus != 'CREATE_FAILED':
        sleep(30)
    else:
        break
```
The external service is modelled as the sequence of statuses successive
`describe_dataset_import_job` calls would return. -/

/-- A status on which the poll loop stops: the loop breaks exactly when the
    status is `'ACTIVE'` or `'CREATE_FAILED'`. -/
def isTerminal (s : String) : Bool :=
  s == "ACTIVE" || s == "CREATE_FAILED"

/-- Run the poll loop against the sequence of statuses the external service
    returns.  Result: `some (requests, sleeps, finalStatus)` when a terminal
    status is reached, `none` when the sequence is exhausted first (the real
    loop would keep polling). -/
def poll : List String → Option (Nat × Nat × String)
  | [] => none
  | s :: rest =>
    if isTerminal s then some (1, 0, s)
    else match poll rest with
      | none => none
      | some (req, sl, f) => some (req + 1, sl + 1, f)

/-- Error taxonomy of spec §7.  The notebooks raise none of these; the type
    exists so that "the code surfaces error E" is statable. -/
inductive PipelineError where
  | DataIncomplete : Nat → Timestamp → PipelineError
  | InvalidRange : PipelineError
  | SubmissionError : PipelineError
  | JobFailed : PipelineError
deriving DecidableEq, Repr

/-- Result of a run: either a normal return carrying the final observed status,
    or a raised pipeline error.  The notebooks only ever return normally. -/
inductive Outcome where
  | ok : String → Outcome
  | error : PipelineError → Outcome
deriving DecidableEq, Repr

/-- Trace of one submit-and-wait run: how often the create-import-job call was
    issued, how many status requests and sleeps the poll loop performed, and
    the outcome. -/
structure RunTrace where
  submissions : Nat
  requests : Nat
  sleeps : Nat
  outcome : Option Outcome
deriving DecidableEq, Repr

/-- `submit_and_wait`: notebook 1 cells 65 and 68.  The create call is issued
    once (cell 65 runs once, nothing ever re-runs it), then the poll loop runs;
    the loop `break`s on a terminal status and execution continues normally —
    no exception is raised on any status, so the outcome is always `Except.ok`
    of the final observed status. -/
def submit_and_wait (statuses : List String) : RunTrace :=
  match poll statuses with
  | none => { submissions := 1, requests := statuses.length, sleeps := statuses.length, outcome := none }
  | some (req, sl, f) => { submissions := 1, requests := req, sleeps := sl, outcome := some (Outcome.ok f) }

/-! ## Schemas and file column orders (notebook 1 cells 37/38/53, related
notebook cells 11/12/16) -/

/-- Column order of the emitted target file: the timestamp index written first
    by `to_csv`, then the frame columns `['traffic_volume', 'item_ID']`. -/
def targetFileColumns : List String :=
  ["timestamp", "traffic_volume", "item_ID"]

/-- Target dataset schema (notebook 1 cell 53): attribute name and type pairs. -/
def targetSchema : List (String × String) :=
  [("timestamp", "timestamp"), ("target_value", "float"), ("item_id", "string")]

/-- Column order of the emitted related file: timestamp index first, then the
    frame columns `['temp', 'rain_1h', 'snow_1h', 'clouds_all',
    'weather_description', 'item_ID']` (related notebook cell 11). -/
def relatedFileColumns : List String :=
  ["timestamp", "temp", "rain_1h", "snow_1h", "clouds_all", "weather_description", "item_ID"]

/-- Related dataset schema (related notebook cell 16). -/
def relatedSchema : List (String × String) :=
  [("timestamp", "timestamp"), ("temperature", "float"), ("rain_1h", "float"),
   ("snow_1h", "float"), ("clouds_all", "float"), ("weather", "string"),
   ("item_id", "string")]

/-- `TIMESTAMP_FORMAT = "yyyy-MM-dd hh:mm:ss"` (notebook 1 cell 44). -/
def TIMESTAMP_FORMAT : String := "yyyy-MM-dd hh:mm:ss"

/-- The format string handed to `create_dataset_import_job` via
    `TimestampFormat=TIMESTAMP_FORMAT` (notebook 1 cell 65, related notebook
    cell 19). -/
def TimestampFormatArgument : String := TIMESTAMP_FORMAT

/-- Zero-pad a number below 100 to two digits. -/
def pad2 (n : Nat) : String :=
  if n < 10 then "0" ++ toString n else toString n

/-- Serialization of a timestamp the way `to_csv` writes a pandas `Timestamp`
    index entry: `YYYY-MM-DD HH:MM:SS` with a zero-padded 24-hour clock. -/
def formatTimestamp (y mo d h mi s : Nat) : String :=
  toString y ++ "-" ++ pad2 mo ++ "-" ++ pad2 d ++ " " ++
    pad2 h ++ ":" ++ pad2 mi ++ ":" ++ pad2 s

/-! ## Calendar helpers for the reference scenario (claim about the range
2017-01-01 00:00 … 2018-09-30 23:00) -/

/-- Gregorian leap-year rule. -/
def isLeap (y : Nat) : Bool :=
  (y % 4 == 0 && y % 100 != 0) || y % 400 == 0

/-- Days in month `m` (1–12) of a year with leap flag `leap`. -/
def daysInMonth (leap : Bool) (m : Nat) : Nat :=
  if m = 2 then (if leap then 29 else 28)
  else if m = 4 ∨ m = 6 ∨ m = 9 ∨ m = 11 then 30
  else 31

/-- One-based day of year of the date `m`/`d`. -/
def dayOfYear (leap : Bool) (m d : Nat) : Nat :=
  (List.range (m - 1)).foldl (fun acc i => acc + daysInMonth leap (i + 1)) 0 + d

/-- Days from 2017-01-01 to the given date (same-day = 0). -/
def daysFrom2017 (y m d : Nat) : Nat :=
  (List.range (y - 2017)).foldl (fun acc i => acc + (if isLeap (2017 + i) then 366 else 365)) 0
    + dayOfYear (isLeap y) m d - 1

/-- Hours from 2017-01-01 00:00 to the given date and hour. -/
def hourIndexFrom2017 (y m d h : Nat) : Nat :=
  daysFrom2017 y m d * 24 + h

/-! ## Auxiliary notions used to state the claims -/

/-- A cell the related-series pipeline treats as missing: NaN, or the empty
    string (which `.replace('', np.nan)` turns into NaN). -/
def isMissing (c : Cell) : Bool :=
  c == Cell.na || c == Cell.str ""

/-- Reference single-column forward fill: the accumulator is the most recent
    non-missing cell seen so far (initially NaN), and every missing cell takes
    the accumulator. -/
def scanFill : Cell → List Cell → List Cell
  | _, [] => []
  | acc, c :: cs =>
    let c2 := if isMissing c then acc else c
    c2 :: scanFill c2 cs

/-- The most recent non-missing cell of a list, NaN if there is none. -/
def lastGoodCell (cs : List Cell) : Cell :=
  cs.foldl (fun acc c => if isMissing c then acc else c) Cell.na

/-- Column `j` of a frame as a list of cells (NaN past the row's width). -/
def colCells (j : Nat) (df : Frame) : List Cell :=
  df.map (fun p => p.2.getD j Cell.na)

/-- Data-frame column that carries each attribute of the related schema, in the
    notebooks' pairing: the schema's `temperature` column is the data frame's
    `temp`, `weather` is `weather_description`, and the rest share names. -/
def relatedColumnOfAttribute : String → Option String
  | "timestamp" => some "timestamp"
  | "temperature" => some "temp"
  | "rain_1h" => some "rain_1h"
  | "snow_1h" => some "snow_1h"
  | "clouds_all" => some "clouds_all"
  | "weather" => some "weather_description"
  | "item_id" => some "item_ID"
  | _ => none

/-- Data-frame column carrying each attribute of the target schema: the
    schema's `target_value` is the data frame's `traffic_volume`. -/
def targetColumnOfAttribute : String → Option String
  | "timestamp" => some "timestamp"
  | "target_value" => some "traffic_volume"
  | "item_id" => some "item_ID"
  | _ => none

/-! ## The reference scenario

A raw hourly series covering 2017-01-01 00:00 through 2018-09-30 23:00
(hours 0 through 15311 from the 2017-01-01 00:00 origin) with three missing
hours inside the range.  The observed values are pairwise distinct, as traffic
counts in the reference data are in general. -/

/-- The three missing hours of the reference scenario. -/
def scenarioMissing : List Nat := [1000, 5000, 10000]

/-- The scenario's raw observations: one row per hour of the range except the
    three missing hours, with pairwise-distinct numeric values. -/
def scenarioRaw : Frame :=
  ((List.range 15312).filter (fun t => decide (t ∉ scenarioMissing))).map
    (fun t => (t, [Cell.num (Int.ofNat t)]))

/-! # Poll-loop theorems -/

/-- The poll loop requests status once per response up to and including the
    first terminal one, sleeping exactly once after each non-terminal
    response. -/
lemma poll_first_terminal (pre : List String) (s : String) (rest : List String)
    (hpre : ∀ x ∈ pre, isTerminal x = false) (hs : isTerminal s = true) :
    poll (pre ++ s :: rest) = some (pre.length + 1, pre.length, s) := by
  induction pre with
  | nil => simp [poll, hs]
  | cons a pre ih =>
    have ha : isTerminal a = false := hpre a (by simp)
    have ih' := ih (fun x hx => hpre x (by simp [hx]))
    simp [poll, ha, ih']

/-- C4: on the status sequence [PENDING, IN_PROGRESS, IN_PROGRESS, ACTIVE] the
    poll loop issues exactly 4 status requests, finishes in the terminal ACTIVE
    state, and sleeps only 3 times — never after the terminal response; in
    general it keeps polling exactly while the observed status is non-terminal
    and stops at the first terminal status. -/
theorem poll_four_requests_stops_at_first_terminal :
    poll ["PENDING", "IN_PROGRESS", "IN_PROGRESS", "ACTIVE"] = some (4, 3, "ACTIVE")
    ∧ isTerminal "ACTIVE" = true
    ∧ ∀ (pre : List String) (s : String) (rest : List String),
        (∀ x ∈ pre, isTerminal x = false) → isTerminal s = true →
        poll (pre ++ s :: rest) = some (pre.length + 1, pre.length, s) :=
  ⟨by decide, by decide, poll_first_terminal⟩

/-- Witness: the poll theorem applied at a concrete sequence whose first
    terminal status sits at index 1. -/
theorem poll_four_requests_witness :
    poll ["CREATE_PENDING", "CREATE_FAILED", "ACTIVE"] = some (2, 1, "CREATE_FAILED") := by
  have h := poll_four_requests_stops_at_first_terminal.2.2 ["CREATE_PENDING"] "CREATE_FAILED"
    ["ACTIVE"] (by decide) (by decide)
  simpa using h

/-- C5 counterexample: on a run whose first observed status is CREATE_FAILED,
    the loop returns normally carrying that status; no JobFailed error is
    surfaced to the caller. -/
theorem submit_and_wait_failed_returns_normally :
    (submit_and_wait ["CREATE_FAILED"]).outcome = some (Outcome.ok "CREATE_FAILED")
    ∧ (submit_and_wait ["CREATE_FAILED"]).outcome
        ≠ some (Outcome.error PipelineError.JobFailed) := by
  decide

/-- C5 amended: when the job reaches CREATE_FAILED the poll loop stops at that
    first terminal response with no further status request and no extra sleep,
    the submission is issued exactly once (never retried), and the run returns
    normally with the observed CREATE_FAILED status instead of raising a
    JobFailed error. -/
theorem submit_and_wait_failed_amended (pre rest : List String)
    (hpre : ∀ x ∈ pre, isTerminal x = false) :
    submit_and_wait (pre ++ "CREATE_FAILED" :: rest) =
      { submissions := 1, requests := pre.length + 1, sleeps := pre.length,
        outcome := some (Outcome.ok "CREATE_FAILED") } := by
  have h := poll_first_terminal pre "CREATE_FAILED" rest hpre (by decide)
  simp [submit_and_wait, h]

/-- Witness: the amended C5 theorem at a concrete run. -/
theorem submit_and_wait_failed_amended_witness :
    submit_and_wait ["CREATE_PENDING", "CREATE_FAILED"] =
      { submissions := 1, requests := 2, sleeps := 1,
        outcome := some (Outcome.ok "CREATE_FAILED") } := by
  have h := submit_and_wait_failed_amended ["CREATE_PENDING"] [] (by decide)
  simpa using h

/-! # Timestamp format theorems -/

/-- C9 counterexample: the format string the notebooks declare to the external
    ingestion job is not `yyyy-MM-dd HH:mm:ss`. -/
theorem timestamp_format_not_HH :
    TimestampFormatArgument ≠ "yyyy-MM-dd HH:mm:ss" := by
  decide

/-- C9 amended: emitted files serialize timestamps zero-padded on a 24-hour
    clock (the text pandas writes for a Timestamp index), e.g. one in the
    afternoon stays 13, but the format string declared to the import job is
    "yyyy-MM-dd hh:mm:ss" — a lowercase hour code, not the same string as the
    emitted 24-hour format. -/
theorem timestamp_format_amended :
    formatTimestamp 2018 9 30 13 5 7 = "2018-09-30 13:05:07"
    ∧ formatTimestamp 2017 1 1 0 0 0 = "2017-01-01 00:00:00"
    ∧ rowToCsv (formatTimestamp 2017 1 1 13 0 0) [Cell.num 3, Cell.str "1"]
        = "2017-01-01 13:00:00,3,1"
    ∧ TimestampFormatArgument = "yyyy-MM-dd hh:mm:ss"
    ∧ TimestampFormatArgument = TIMESTAMP_FORMAT := by
  refine ⟨by decide, by decide, ?_, by decide, by decide⟩
  rfl

/-! # CSV / schema theorems -/

/-- C8: `to_csv(header=False)` emits exactly one comma-separated line per data
    row and no header line; the file's columns come in the fixed declared order
    with the item identifier column last, and that order matches the dataset
    schema attribute order position by position (related file: timestamp,
    temperature, rain_1h, snow_1h, clouds_all, weather, item_id). -/
theorem csv_no_header_fixed_column_order :
    (∀ (fmt : Timestamp → String) (df : Frame), (to_csv fmt df).length = df.length)
    ∧ to_csv (fun _ => "2017-01-01 00:00:00")
        [(0, [Cell.num 288, Cell.num 0, Cell.num 0, Cell.num 40, Cell.str "clouds",
              Cell.str "1"])]
        = ["2017-01-01 00:00:00,288,0,0,40,clouds,1"]
    ∧ relatedSchema.map Prod.fst
        = ["timestamp", "temperature", "rain_1h", "snow_1h", "clouds_all", "weather", "item_id"]
    ∧ relatedSchema.map (fun a => relatedColumnOfAttribute a.1) = relatedFileColumns.map some
    ∧ relatedFileColumns.getLast? = some "item_ID"
    ∧ (relatedSchema.map Prod.fst).getLast? = some "item_id"
    ∧ targetSchema.map (fun a => targetColumnOfAttribute a.1) = targetFileColumns.map some
    ∧ targetFileColumns.getLast? = some "item_ID" := by
  refine ⟨fun fmt df => by simp [to_csv], ?_, by decide, by decide, by decide, by decide,
    by decide, by decide⟩
  rfl

/-! # Missing-data handling of the notebooks (C1) -/

/-- C1: the flows never fail on unfillable gaps.  An empty raw input and a raw
    input whose leading axis hours are missing both yield output rows whose
    cells are still NaN; the rows are serialized to CSV with empty fields
    (partial rows), and no DataIncomplete error exists anywhere in the flow. -/
theorem regularizer_emits_nan_rows_without_error :
    regularize [] 0 2 1 1 = [(0, [Cell.na]), (1, [Cell.na]), (2, [Cell.na])]
    ∧ regularize [(2, [Cell.num 9])] 0 3 1 1
        = [(0, [Cell.na]), (1, [Cell.na]), (2, [Cell.num 9]), (3, [Cell.num 9])]
    ∧ to_csv (fun t => toString t) (target_flow [(2, [Cell.num 9])] 0 3 1 1 0)
        = ["0,", "1,", "2,9", "3,"] := by
  refine ⟨by decide, by decide, ?_⟩
  rfl

/-! # Deduplication theorems (C3) -/

/-- C3 counterexample: two raw rows with identical timestamp and item_id but
    differing values are both kept (the index never takes part in the
    comparison), while a row whose column values duplicate an earlier row is
    dropped even at a different timestamp. -/
theorem drop_duplicates_not_keyed_on_timestamp :
    drop_duplicates [(0, [Cell.num 5, Cell.str "1"]), (0, [Cell.num 7, Cell.str "1"])]
      = [(0, [Cell.num 5, Cell.str "1"]), (0, [Cell.num 7, Cell.str "1"])]
    ∧ drop_duplicates [(0, [Cell.num 5, Cell.str "1"]), (1, [Cell.num 5, Cell.str "1"])]
      = [(0, [Cell.num 5, Cell.str "1"])] := by
  decide

/-- Deduplication only ever removes rows: the result is a subsequence. -/
lemma dropDuplicatesAux_sublist (df : Frame) :
    ∀ seen, (dropDuplicatesAux seen df).Sublist df := by
  induction df with
  | nil => intro seen; simp [dropDuplicatesAux]
  | cons p rest ih =>
    intro seen
    obtain ⟨t, r⟩ := p
    by_cases h : r ∈ seen
    · simp only [dropDuplicatesAux, if_pos h]
      exact (ih seen).cons _
    · simp only [dropDuplicatesAux, if_neg h]
      exact (ih (r :: seen)).cons₂ _

/-- The kept rows have pairwise-distinct column-value tuples, none of which
    was already seen. -/
lemma dropDuplicatesAux_rows_nodup (df : Frame) :
    ∀ seen, ((dropDuplicatesAux seen df).map Prod.snd).Nodup
      ∧ ∀ r ∈ (dropDuplicatesAux seen df).map Prod.snd, r ∉ seen := by
  induction df with
  | nil => intro seen; simp [dropDuplicatesAux]
  | cons p rest ih =>
    intro seen
    obtain ⟨t, r⟩ := p
    by_cases h : r ∈ seen
    · simpa only [dropDuplicatesAux, if_pos h] using ih seen
    · have ih' := ih (r :: seen)
      simp only [dropDuplicatesAux, if_neg h, List.map_cons, List.nodup_cons, List.mem_cons]
      refine ⟨⟨fun hr => ?_, ih'.1⟩, ?_⟩
      · exact (ih'.2 r hr) (by simp)
      · rintro r' (rfl | hr')
        · exact h
        · intro hseen
          exact (ih'.2 r' hr') (by simp [hseen])

/-- For every row value present in the frame it is the first-encountered
    carrier of that value that survives deduplication. -/
lemma dropDuplicatesAux_first_occurrence (df : Frame) :
    ∀ (seen : List Row) (r : Row), r ∉ seen → (∃ p ∈ df, p.2 = r) →
      ∃ t, (t, r) ∈ dropDuplicatesAux seen df
        ∧ df.find? (fun q => decide (q.2 = r)) = some (t, r) := by
  induction df with
  | nil =>
    intro seen r _ hex
    simp at hex
  | cons p rest ih =>
    intro seen r hr hex
    obtain ⟨t', r'⟩ := p
    by_cases hrr : r' = r
    · subst hrr
      refine ⟨t', ?_, ?_⟩
      · simp only [dropDuplicatesAux, if_neg hr]
        exact List.mem_cons_self _ _
      · simp [List.find?]
    · have hex' : ∃ p ∈ rest, p.2 = r := by
        obtain ⟨q, hq, hqr⟩ := hex
        rcases List.mem_cons.mp hq with h1 | h1
        · exact absurd (h1 ▸ hqr : (t', r').2 = r) hrr
        · exact ⟨q, h1, hqr⟩
      by_cases hseen : r' ∈ seen
      · obtain ⟨t, hmem, hfind⟩ := ih seen r hr hex'
        refine ⟨t, ?_, ?_⟩
        · simpa only [dropDuplicatesAux, if_pos hseen] using hmem
        · simpa [List.find?, hrr] using hfind
      · have hr2 : r ∉ r' :: seen := by
          simp only [List.mem_cons, not_or]
          exact ⟨fun h => hrr h.symm, hr⟩
        obtain ⟨t, hmem, hfind⟩ := ih (r' :: seen) r hr2 hex'
        refine ⟨t, ?_, ?_⟩
        · simp only [dropDuplicatesAux, if_neg hseen]
          exact List.mem_cons_of_mem _ hmem
        · simpa [List.find?, hrr] using hfind

/-- C3 amended: deduplication compares only the tuple of column values and
    never consults the timestamp index: the result is a subsequence of the
    input whose row tuples are pairwise distinct, and for each input row the
    entry kept for its value tuple is the first-encountered row carrying it —
    so two rows with identical (timestamp, item_id) but differing values are
    both kept. -/
theorem drop_duplicates_first_wins_on_row_values (df : Frame) :
    (drop_duplicates df).Sublist df
    ∧ ((drop_duplicates df).map Prod.snd).Nodup
    ∧ ∀ p ∈ df, ∃ t, (t, p.2) ∈ drop_duplicates df
        ∧ df.find? (fun q => decide (q.2 = p.2)) = some (t, p.2) := by
  refine ⟨dropDuplicatesAux_sublist df [], (dropDuplicatesAux_rows_nodup df []).1, ?_⟩
  intro p hp
  exact dropDuplicatesAux_first_occurrence df [] p.2 (by simp) ⟨p, hp, rfl⟩

/-- Witness: the dedup characterization applied to a concrete two-row frame
    whose rows agree in value but not in timestamp. -/
theorem drop_duplicates_first_wins_witness :
    (drop_duplicates [(0, [Cell.num 5]), (1, [Cell.num 5])]).Sublist
        [(0, [Cell.num 5]), (1, [Cell.num 5])]
    ∧ ((drop_duplicates [(0, [Cell.num 5]), (1, [Cell.num 5])]).map Prod.snd).Nodup
    ∧ ∃ t, (t, [Cell.num 5]) ∈ drop_duplicates [(0, [Cell.num 5]), (1, [Cell.num 5])]
        ∧ ([(0, [Cell.num 5]), (1, [Cell.num 5])] : Frame).find?
            (fun q => decide (q.2 = [Cell.num 5])) = some (t, [Cell.num 5]) := by
  obtain ⟨h1, h2, h3⟩ := drop_duplicates_first_wins_on_row_values
      [(0, [Cell.num 5]), (1, [Cell.num 5])]
  exact ⟨h1, h2, h3 (1, [Cell.num 5]) (by decide)⟩

/-! # Forward-fill theorems (C10) -/

/-- Positional view of one forward-fill zip step. -/
lemma zipWith_ffill_getD :
    ∀ (as bs : Row) (j : Nat), j < as.length → j < bs.length →
      (List.zipWith ffillCell as bs).getD j Cell.na
        = ffillCell (as.getD j Cell.na) (bs.getD j Cell.na) := by
  intro as
  induction as with
  | nil => intro bs j h _; simp at h
  | cons a as ih =>
    intro bs j h1 h2
    cases bs with
    | nil => simp at h2
    | cons b bs =>
      cases j with
      | zero => simp
      | succ j =>
        simp only [List.zipWith_cons_cons, List.getD_cons_succ]
        exact ih bs j (Nat.lt_of_succ_lt_succ h1) (Nat.lt_of_succ_lt_succ h2)

/-- Positional view of mapping the empty-string replacement over a row. -/
lemma getD_map_replaceEmpty :
    ∀ (r : Row) (j : Nat), j < r.length →
      (r.map replaceEmptyCell).getD j Cell.na = replaceEmptyCell (r.getD j Cell.na) := by
  intro r
  induction r with
  | nil => intro j h; simp at h
  | cons c r ih =>
    intro j h
    cases j with
    | zero => simp
    | succ j =>
      simp only [List.map_cons, List.getD_cons_succ]
      exact ih j (Nat.lt_of_succ_lt_succ h)

/-- Replacing the empty string then forward-filling one cell treats exactly
    NaN and the empty string as missing. -/
lemma ffillCell_replaceEmpty (last c : Cell) :
    ffillCell last (replaceEmptyCell c) = if isMissing c then last else c := by
  cases c with
  | na => simp [ffillCell, replaceEmptyCell, isMissing]
  | str s =>
    by_cases hs : s = "" <;>
      simp [ffillCell, replaceEmptyCell, isMissing, hs]
  | num n => simp [ffillCell, replaceEmptyCell, isMissing]

/-- `getD` on a replicated list is the replicated element (here both the
    element and the default are NaN). -/
lemma getD_replicate_na (w j : Nat) :
    (List.replicate w Cell.na).getD j Cell.na = Cell.na := by
  induction w generalizing j with
  | zero => simp
  | succ w ih =>
    cases j with
    | zero => simp [List.replicate]
    | succ j => simp [List.replicate]

/-- Column `j` of the forward-filled, empty-replaced frame is the scan that
    replaces each missing cell by the accumulator, started at the carried
    value for column `j`. -/
lemma ffillAux_colCells :
    ∀ (df : Frame) (last : Row) (j : Nat),
      (∀ p ∈ df, p.2.length = last.length) → j < last.length →
      colCells j (ffillAux last (replaceEmpty df))
        = scanFill (last.getD j Cell.na) (colCells j df) := by
  intro df
  induction df with
  | nil => intro last j _ _; simp [replaceEmpty, ffillAux, colCells, scanFill]
  | cons p rest ih =>
    intro last j hlen hj
    obtain ⟨t, r⟩ := p
    have hr : r.length = last.length := hlen (t, r) (by simp)
    have hmaplen : (r.map replaceEmptyCell).length = last.length := by
      simpa using hr
    have hfilled_getD :
        (List.zipWith ffillCell last (r.map replaceEmptyCell)).getD j Cell.na
          = if isMissing (r.getD j Cell.na) then last.getD j Cell.na
            else r.getD j Cell.na := by
      rw [zipWith_ffill_getD last (r.map replaceEmptyCell) j hj (by omega),
        getD_map_replaceEmpty r j (by omega), ffillCell_replaceEmpty]
    have hfilled_len :
        (List.zipWith ffillCell last (r.map replaceEmptyCell)).length = last.length := by
      simp [List.length_zipWith, hmaplen]
    have ih' := ih (List.zipWith ffillCell last (r.map replaceEmptyCell)) j
      (fun q hq => by rw [hfilled_len]; exact hlen q (by simp [hq]))
      (by omega)
    simp only [replaceEmpty, List.map_cons, ffillAux, colCells, scanFill]
    refine List.cons_eq_cons.mpr ⟨hfilled_getD, ?_⟩
    have := ih'
    simp only [replaceEmpty, colCells] at this
    rw [this, hfilled_getD]

/-- Positional view of the reference scan: entry `i` is the fold of the first
    `i + 1` cells. -/
lemma scanFill_getD :
    ∀ (cs : List Cell) (acc : Cell) (i : Nat), i < cs.length →
      (scanFill acc cs).getD i Cell.na
        = (cs.take (i + 1)).foldl (fun a c => if isMissing c then a else c) acc := by
  intro cs
  induction cs with
  | nil => intro acc i h; simp at h
  | cons c cs ih =>
    intro acc i h
    cases i with
    | zero => simp [scanFill]
    | succ i =>
      simp only [scanFill, List.getD_cons_succ, List.take_succ_cons, List.foldl_cons]
      exact ih _ i (Nat.lt_of_succ_lt_succ h)

/-- C10: the related-series pipeline treats empty-string cells as missing:
    after `.replace('', np.nan)` and `.ffill()`, every column equals the scan
    in which each NaN or empty-string cell takes the most recent preceding
    cell that is neither NaN nor empty, and that scan's entry `i` is exactly
    the last non-missing cell among the first `i + 1` raw cells. -/
theorem replace_empty_then_ffill_most_recent_nonmissing :
    (∀ (df : Frame) (width j : Nat), (∀ p ∈ df, p.2.length = width) → j < width →
      colCells j (ffill width (replaceEmpty df)) = scanFill Cell.na (colCells j df))
    ∧ ∀ (cs : List Cell) (i : Nat), i < cs.length →
        (scanFill Cell.na cs).getD i Cell.na = lastGoodCell (cs.take (i + 1)) := by
  constructor
  · intro df width j hlen hj
    have h := ffillAux_colCells df (List.replicate width Cell.na) j
      (fun p hp => by simpa using hlen p hp) (by simpa using hj)
    rw [ffill, h, getD_replicate_na]
  · intro cs i h
    exact scanFill_getD cs Cell.na i h

/-- Witness: the empty-string/forward-fill theorem on a concrete one-column
    frame holding a value, then an empty string, then a NaN. -/
theorem replace_empty_then_ffill_witness :
    colCells 0 (ffill 1 (replaceEmpty [(0, [Cell.str "a"]), (1, [Cell.str ""]), (2, [Cell.na])]))
      = scanFill Cell.na (colCells 0 [(0, [Cell.str "a"]), (1, [Cell.str ""]), (2, [Cell.na])])
    ∧ (scanFill Cell.na [Cell.str "a", Cell.str "", Cell.na]).getD 2 Cell.na
      = lastGoodCell [Cell.str "a", Cell.str "", Cell.na]
    ∧ scanFill Cell.na [Cell.str "a", Cell.str "", Cell.na]
      = [Cell.str "a", Cell.str "a", Cell.str "a"] := by
  obtain ⟨h1, h2⟩ := replace_empty_then_ffill_most_recent_nonmissing
  refine ⟨h1 _ 1 0 (by decide) (by decide), ?_, by decide⟩
  simpa using h2 [Cell.str "a", Cell.str "", Cell.na] 2 (by decide)

/-! # Canonical axis and outer-join machinery -/

lemma sortedUnion_cons (a : Timestamp) (l : List Timestamp) :
    sortedUnion (a :: l) = insertSorted a (sortedUnion l) := rfl

lemma mem_insertSorted (t : Timestamp) :
    ∀ (l : List Timestamp) (u : Timestamp), u ∈ insertSorted t l ↔ u = t ∨ u ∈ l := by
  intro l
  induction l with
  | nil => intro u; simp [insertSorted]
  | cons a l ih =>
    intro u
    by_cases h1 : t < a
    · simp only [insertSorted, if_pos h1, List.mem_cons]
    · by_cases h2 : t = a
      · simp only [insertSorted, if_neg h1, if_pos h2, List.mem_cons]
        subst h2
        tauto
      · simp only [insertSorted, if_neg h1, if_neg h2, List.mem_cons, ih u]
        tauto

lemma insertSorted_sorted (t : Timestamp) :
    ∀ l, List.Pairwise (· < ·) l → List.Pairwise (· < ·) (insertSorted t l) := by
  intro l
  induction l with
  | nil => intro _; simp [insertSorted]
  | cons a l ih =>
    intro hs
    rw [List.pairwise_cons] at hs
    by_cases h1 : t < a
    · simp only [insertSorted, if_pos h1]
      refine List.Pairwise.cons ?_ (List.Pairwise.cons hs.1 hs.2)
      intro b hb
      rcases List.mem_cons.mp hb with rfl | hb
      · exact h1
      · exact lt_trans h1 (hs.1 b hb)
    · by_cases h2 : t = a
      · simp only [insertSorted, if_neg h1, if_pos h2]
        exact List.Pairwise.cons hs.1 hs.2
      · have hat : a < t :=
          Nat.lt_of_le_of_ne (Nat.le_of_not_lt h1) (fun h => h2 h.symm)
        simp only [insertSorted, if_neg h1, if_neg h2]
        refine List.Pairwise.cons ?_ (ih hs.2)
        intro b hb
        rcases (mem_insertSorted t l b).mp hb with rfl | hb
        · exact hat
        · exact hs.1 b hb

lemma sortedUnion_sorted (l : List Timestamp) : List.Pairwise (· < ·) (sortedUnion l) := by
  induction l with
  | nil => simp [sortedUnion]
  | cons a l ih =>
    rw [sortedUnion_cons]
    exact insertSorted_sorted a _ ih

lemma mem_sortedUnion : ∀ (l : List Timestamp) (u : Timestamp), u ∈ sortedUnion l ↔ u ∈ l := by
  intro l
  induction l with
  | nil => intro u; simp [sortedUnion]
  | cons a l ih =>
    intro u
    rw [sortedUnion_cons, mem_insertSorted, ih u, List.mem_cons]

/-- Two strictly sorted lists with the same members are equal. -/
lemma eq_of_pairwise_lt_mem_iff (l₁ l₂ : List Timestamp)
    (h₁ : List.Pairwise (· < ·) l₁) (h₂ : List.Pairwise (· < ·) l₂)
    (hm : ∀ t, t ∈ l₁ ↔ t ∈ l₂) : l₁ = l₂ := by
  have n₁ : l₁.Nodup := h₁.imp (fun h => Nat.ne_of_lt h)
  have n₂ : l₂.Nodup := h₂.imp (fun h => Nat.ne_of_lt h)
  have hp : List.Perm l₁ l₂ := (List.perm_ext_iff_of_nodup n₁ n₂).mpr hm
  exact List.eq_of_perm_of_sorted hp h₁ h₂

lemma date_range_sorted (start stop freq : Nat) :
    List.Pairwise (· < ·) (date_range start stop freq) := by
  unfold date_range
  split
  · simp
  · by_cases hf : freq = 0
    · subst hf
      simp
    · refine List.Pairwise.map _ ?_ (List.pairwise_lt_range _)
      intro a b hab
      exact Nat.add_lt_add_left (Nat.mul_lt_mul_of_pos_right hab (Nat.pos_of_ne_zero hf)) start

lemma date_range_length (start stop freq : Nat) (h : start ≤ stop) :
    (date_range start stop freq).length = (stop - start) / freq + 1 := by
  unfold date_range
  rw [if_neg (by omega)]
  simp

lemma date_range_chain' (start stop freq : Nat) :
    List.Chain' (fun a b => b = a + freq) (date_range start stop freq) := by
  unfold date_range
  split
  · simp
  · rw [List.chain'_map, List.chain'_range_succ]
    intro m _
    rw [Nat.succ_mul, Nat.add_assoc]

lemma date_range_zero_one (n : Nat) : date_range 0 n 1 = List.range (n + 1) := by
  unfold date_range
  rw [if_neg (by omega)]
  simp

/-- Filtering by a key absent from the frame gives nothing. -/
lemma filter_key_nil :
    ∀ (df : Frame) (t : Timestamp), t ∉ df.map Prod.fst →
      df.filter (fun p => p.1 = t) = [] := by
  intro df
  induction df with
  | nil => intro t _; rfl
  | cons q rest ih =>
    intro t ht
    simp only [List.map_cons, List.mem_cons, not_or] at ht
    rw [List.filter_cons, if_neg (by simpa using fun h => ht.1 h.symm)]
    exact ih t ht.2

/-- With pairwise-distinct keys, filtering by the key of a member returns
    exactly that member. -/
lemma filter_key_of_mem :
    ∀ (df : Frame), (df.map Prod.fst).Nodup →
      ∀ p ∈ df, df.filter (fun q => q.1 = p.1) = [p] := by
  intro df
  induction df with
  | nil => intro _ p hp; simp at hp
  | cons q rest ih =>
    intro hnd p hp
    simp only [List.map_cons, List.nodup_cons] at hnd
    rcases List.mem_cons.mp hp with rfl | hp'
    · rw [List.filter_cons, if_pos (by simp)]
      rw [filter_key_nil rest p.1 hnd.1]
    · have hq : q.1 ≠ p.1 := by
        intro h
        exact hnd.1 (h ▸ (List.mem_map.mpr ⟨p, hp', rfl⟩))
      rw [List.filter_cons, if_neg (by simpa using hq)]
      exact ih hnd.2 p hp'

/-- With pairwise-distinct keys, a filter by key is empty or a singleton whose
    element carries that key. -/
lemma filter_key_sub_singleton (df : Frame) (hnd : (df.map Prod.fst).Nodup)
    (t : Timestamp) :
    df.filter (fun p => p.1 = t) = []
    ∨ ∃ q ∈ df, df.filter (fun p => p.1 = t) = [q] ∧ q.1 = t := by
  by_cases h : t ∈ df.map Prod.fst
  · obtain ⟨p, hp, hpt⟩ := List.mem_map.mp h
    right
    refine ⟨p, hp, ?_, hpt⟩
    rw [← hpt]
    exact filter_key_of_mem df hnd p hp
  · exact Or.inl (filter_key_nil df t h)

/-- Forward filling does not change the index column. -/
lemma map_fst_ffillAux :
    ∀ (df : Frame) (last : Row), (ffillAux last df).map Prod.fst = df.map Prod.fst := by
  intro df
  induction df with
  | nil => intro last; rfl
  | cons p rest ih =>
    intro last
    obtain ⟨t, r⟩ := p
    simp only [ffillAux, List.map_cons]
    rw [ih]

/-- Replacing empty strings does not change the index column. -/
lemma map_fst_replaceEmpty (df : Frame) :
    (replaceEmpty df).map Prod.fst = df.map Prod.fst := by
  induction df with
  | nil => rfl
  | cons p rest ih =>
    simp only [replaceEmpty, List.map_cons] at *
    rw [ih]

/-- When every data timestamp lies on the axis, the outer join's index union
    is the axis itself. -/
lemma outerJoin_eq_flatMap_axis (axis : List Timestamp) (df : Frame) (width : Nat)
    (hsort : List.Pairwise (· < ·) axis) (hsub : ∀ p ∈ df, p.1 ∈ axis) :
    outerJoin axis df width = axis.flatMap (joinRow df width) := by
  unfold outerJoin
  congr 1
  apply eq_of_pairwise_lt_mem_iff _ _ (sortedUnion_sorted _) hsort
  intro t
  rw [mem_sortedUnion, List.mem_append, List.mem_map]
  constructor
  · rintro (h | ⟨p, hp, rfl⟩)
    · exact h
    · exact hsub p hp
  · exact Or.inl

/-- With pairwise-distinct data keys, the join block of each axis timestamp is
    a single row carrying that timestamp, so the joined index is the axis. -/
lemma flatMap_keys (df : Frame) (width : Nat) (hnd : (df.map Prod.fst).Nodup) :
    ∀ (axis : List Timestamp),
      ((axis.flatMap (joinRow df width)).map Prod.fst) = axis := by
  intro axis
  induction axis with
  | nil => rfl
  | cons a axis ih =>
    rw [List.flatMap_cons, List.map_append, ih]
    rcases filter_key_sub_singleton df hnd a with h | ⟨q, _, h, hq⟩
    · simp [joinRow, h]
    · simp [joinRow, h, hq]

/-- Under distinct in-range raw timestamps, the Regularizer's index equals the
    canonical axis. -/
lemma regularize_keys (raw : Frame) (start stop freq width : Nat)
    (hnd : (raw.map Prod.fst).Nodup)
    (hsub : ∀ p ∈ raw, p.1 ∈ date_range start stop freq) :
    (regularize raw start stop freq width).map Prod.fst = date_range start stop freq := by
  have hsl : (drop_duplicates raw).Sublist raw := dropDuplicatesAux_sublist raw []
  have hnd' : ((drop_duplicates raw).map Prod.fst).Nodup :=
    List.Nodup.sublist (List.Sublist.map Prod.fst hsl) hnd
  have hsub' : ∀ p ∈ drop_duplicates raw, p.1 ∈ date_range start stop freq :=
    fun p hp => hsub p (hsl.subset hp)
  rw [regularize, ffill, map_fst_ffillAux, map_fst_replaceEmpty,
    outerJoin_eq_flatMap_axis _ _ _ (date_range_sorted _ _ _) hsub']
  exact flatMap_keys _ _ hnd' _

/-! # Row-count theorems (C2) -/

/-- C2 counterexample: a raw observation at a timestamp outside the requested
    range survives the `how='outer'` join, so with start 0, end 1, frequency 1
    the output has 3 rows where the claim requires (1-0)/1 + 1 = 2, and its
    timestamps do not advance in steps of the frequency. -/
theorem regularize_row_count_counterexample :
    (regularize [(5, [Cell.num 1])] 0 1 1 1).map Prod.fst = [0, 1, 5]
    ∧ (regularize [(5, [Cell.num 1])] 0 1 1 1).length = 3
    ∧ (1 - 0) / 1 + 1 = 2 := by
  decide

/-- C2 amended: for every valid (start, end, frequency) with start ≤ end and
    frequency > 0, and every raw input whose timestamps are pairwise distinct
    and all lie on the canonical axis, the Regularizer's output has exactly
    (end - start) / frequency + 1 rows and its timestamps are the canonical
    axis: pairwise distinct, strictly increasing, advancing by exactly the
    frequency. -/
theorem regularize_row_count_amended (raw : Frame) (start stop freq width : Nat)
    (_hfreq : 0 < freq) (hrange : start ≤ stop)
    (hnd : (raw.map Prod.fst).Nodup)
    (hsub : ∀ p ∈ raw, p.1 ∈ date_range start stop freq) :
    (regularize raw start stop freq width).map Prod.fst = date_range start stop freq
    ∧ (regularize raw start stop freq width).length = (stop - start) / freq + 1
    ∧ List.Pairwise (· < ·) ((regularize raw start stop freq width).map Prod.fst)
    ∧ List.Chain' (fun a b => b = a + freq)
        ((regularize raw start stop freq width).map Prod.fst) := by
  have hk := regularize_keys raw start stop freq width hnd hsub
  refine ⟨hk, ?_, ?_, ?_⟩
  · have hlen := congrArg List.length hk
    rw [List.length_map] at hlen
    rw [hlen, date_range_length _ _ _ hrange]
  · rw [hk]; exact date_range_sorted _ _ _
  · rw [hk]; exact date_range_chain' _ _ _

/-- Witness: the amended row-count theorem on a concrete in-range input. -/
theorem regularize_row_count_witness :
    (regularize [(1, [Cell.num 4])] 0 2 1 1).map Prod.fst = date_range 0 2 1
    ∧ (regularize [(1, [Cell.num 4])] 0 2 1 1).length = (2 - 0) / 1 + 1
    ∧ List.Pairwise (· < ·) ((regularize [(1, [Cell.num 4])] 0 2 1 1).map Prod.fst)
    ∧ List.Chain' (fun a b => b = a + 1)
        ((regularize [(1, [Cell.num 4])] 0 2 1 1).map Prod.fst) :=
  regularize_row_count_amended [(1, [Cell.num 4])] 0 2 1 1 (by decide) (by decide)
    (by decide) (by decide)

/-! # Idempotence theorems (C7) -/

/-- Deduplication keeps a frame whose row tuples are pairwise distinct. -/
lemma dropDuplicatesAux_eq_self :
    ∀ (df : Frame) (seen : List Row), (df.map Prod.snd).Nodup →
      (∀ r ∈ df.map Prod.snd, r ∉ seen) → dropDuplicatesAux seen df = df := by
  intro df
  induction df with
  | nil => intro seen _ _; rfl
  | cons p rest ih =>
    intro seen hnd hseen
    obtain ⟨t, r⟩ := p
    simp only [List.map_cons, List.nodup_cons] at hnd
    have hr : r ∉ seen := hseen r (by simp)
    rw [dropDuplicatesAux, if_neg hr]
    congr 1
    refine ih (r :: seen) hnd.2 ?_
    intro r' hr'
    simp only [List.mem_cons, not_or]
    exact ⟨fun h => hnd.1 (h ▸ hr'), hseen r' (by simp [hr'])⟩

/-- Forward-filling a NaN-free row of matching width changes nothing. -/
lemma zipWith_ffill_eq_self :
    ∀ (last r : Row), r.length = last.length → (∀ c ∈ r, c ≠ Cell.na) →
      List.zipWith ffillCell last r = r := by
  intro last
  induction last with
  | nil =>
    intro r hlen _
    rw [List.length_nil, List.length_eq_zero] at hlen
    simp [hlen]
  | cons a as ih =>
    intro r hlen hna
    cases r with
    | nil => rfl
    | cons c cs =>
      simp only [List.zipWith_cons_cons]
      rw [ffillCell, if_neg (hna c (by simp)), ih cs (by simpa using hlen)
        (fun c' hc' => hna c' (by simp [hc']))]

/-- Forward fill is the identity on NaN-free frames of uniform width. -/
lemma ffillAux_eq_self :
    ∀ (df : Frame) (last : Row), (∀ p ∈ df, p.2.length = last.length) →
      (∀ p ∈ df, ∀ c ∈ p.2, c ≠ Cell.na) → ffillAux last df = df := by
  intro df
  induction df with
  | nil => intro last _ _; rfl
  | cons p rest ih =>
    intro last hlen hna
    obtain ⟨t, r⟩ := p
    have hr : List.zipWith ffillCell last r = r :=
      zipWith_ffill_eq_self last r (hlen (t, r) (by simp)) (hna (t, r) (by simp))
    simp only [ffillAux, hr]
    rw [ih r (fun q hq => by rw [hlen q (by simp [hq]), hlen (t, r) (by simp)])
      (fun q hq => hna q (by simp [hq]))]

/-- Replacing empty strings is the identity on frames without empty-string
    cells. -/
lemma replaceEmpty_eq_self (df : Frame)
    (h : ∀ p ∈ df, ∀ c ∈ p.2, c ≠ Cell.str "") : replaceEmpty df = df := by
  induction df with
  | nil => rfl
  | cons p rest ih =>
    obtain ⟨t, r⟩ := p
    simp only [replaceEmpty, List.map_cons] at *
    have hr : ∀ (cs : Row), (∀ c ∈ cs, c ≠ Cell.str "") → cs.map replaceEmptyCell = cs := by
      intro cs
      induction cs with
      | nil => intro _; rfl
      | cons c cs ihc =>
        intro hcs
        simp only [List.map_cons]
        rw [replaceEmptyCell, if_neg (hcs c (by simp)),
          ihc (fun c' hc' => hcs c' (by simp [hc']))]
    rw [hr r (h (t, r) (by simp)), ih (fun q hq => h q (by simp [hq]))]

/-- A non-missing cell is neither NaN nor the empty string. -/
lemma isMissing_false_iff (c : Cell) :
    isMissing c = false ↔ c ≠ Cell.na ∧ c ≠ Cell.str "" := by
  cases c <;> simp [isMissing]

/-- Joining a frame onto its own (duplicate-free) index reproduces the frame. -/
lemma flatMap_own_keys :
    ∀ (df : Frame) (width : Nat), (df.map Prod.fst).Nodup →
      ((df.map Prod.fst).flatMap (joinRow df width)) = df := by
  intro df
  induction df with
  | nil => intro width _; rfl
  | cons q rest ih =>
    intro width hnd
    have hq : (q :: rest).filter (fun p => p.1 = q.1) = [q] :=
      filter_key_of_mem (q :: rest) hnd q (by simp)
    have hnd' := hnd
    simp only [List.map_cons, List.nodup_cons] at hnd'
    have hcongr : ∀ t ∈ rest.map Prod.fst,
        joinRow (q :: rest) width t = joinRow rest width t := by
      intro t ht
      have hqt : q.1 ≠ t := fun h => hnd'.1 (h ▸ ht)
      simp only [joinRow, List.filter_cons]
      rw [if_neg (by simpa using hqt)]
    rw [List.map_cons, List.flatMap_cons]
    rw [show joinRow (q :: rest) width q.1 = [q] by simp [joinRow, hq],
      List.flatMap_congr hcongr, ih width hnd'.2, List.singleton_append]

/-- C7 counterexample: the three-hour series with values 5, 7, 5 is already
    duplicate-free by (timestamp, item_id), gap-free and null-free over the
    axis 0..2 at frequency 1, yet regularizing it changes the last value:
    deduplication drops hour 2 (its full row equals hour 0's row) and forward
    fill rebuilds it from hour 1. -/
theorem regularize_not_idempotent :
    List.map Prod.fst [(0, [Cell.num 5]), (1, [Cell.num 7]), (2, [Cell.num 5])]
      = date_range 0 2 1
    ∧ regularize [(0, [Cell.num 5]), (1, [Cell.num 7]), (2, [Cell.num 5])] 0 2 1 1
        = [(0, [Cell.num 5]), (1, [Cell.num 7]), (2, [Cell.num 7])]
    ∧ regularize [(0, [Cell.num 5]), (1, [Cell.num 7]), (2, [Cell.num 5])] 0 2 1 1
        ≠ [(0, [Cell.num 5]), (1, [Cell.num 7]), (2, [Cell.num 5])] := by
  decide

/-- C7 amended: the Regularizer is the identity on every series that is
    gap-free over the canonical axis, free of missing cells (NaN or empty
    string, both of which the pipeline treats as missing), of uniform width,
    and whose full rows of column values are pairwise distinct (the comparison
    deduplication actually performs). -/
theorem regularize_idempotent_amended (raw : Frame) (start stop freq width : Nat)
    (hkeys : raw.map Prod.fst = date_range start stop freq)
    (hrows : (raw.map Prod.snd).Nodup)
    (hw : ∀ p ∈ raw, p.2.length = width)
    (hclean : ∀ p ∈ raw, ∀ c ∈ p.2, isMissing c = false) :
    regularize raw start stop freq width = raw := by
  have hnd : (raw.map Prod.fst).Nodup := by
    rw [hkeys]
    exact (date_range_sorted start stop freq).imp (fun h => Nat.ne_of_lt h)
  have hdedup : drop_duplicates raw = raw :=
    dropDuplicatesAux_eq_self raw [] hrows (by simp)
  have hna : ∀ p ∈ raw, ∀ c ∈ p.2, c ≠ Cell.na :=
    fun p hp c hc => ((isMissing_false_iff c).mp (hclean p hp c hc)).1
  have hstr : ∀ p ∈ raw, ∀ c ∈ p.2, c ≠ Cell.str "" :=
    fun p hp c hc => ((isMissing_false_iff c).mp (hclean p hp c hc)).2
  have hsub : ∀ p ∈ raw, p.1 ∈ date_range start stop freq := by
    intro p hp
    rw [← hkeys]
    exact List.mem_map.mpr ⟨p, hp, rfl⟩
  rw [regularize, hdedup,
    outerJoin_eq_flatMap_axis _ _ _ (date_range_sorted _ _ _) hsub,
    ← hkeys, flatMap_own_keys raw width hnd,
    replaceEmpty_eq_self raw hstr, ffill,
    ffillAux_eq_self raw (List.replicate width Cell.na)
      (fun p hp => by simpa using hw p hp) hna]

/-- Witness: the amended idempotence theorem on a concrete regular series. -/
theorem regularize_idempotent_witness :
    regularize [(0, [Cell.num 1]), (1, [Cell.num 2]), (2, [Cell.num 3])] 0 2 1 1
      = [(0, [Cell.num 1]), (1, [Cell.num 2]), (2, [Cell.num 3])] :=
  regularize_idempotent_amended _ 0 2 1 1 (by decide) (by decide) (by decide) (by decide)

/-! # Reference-scenario machinery (C6) -/

/-- Head of a forward-filled frame. -/
lemma ffillAux_getElem_zero :
    ∀ (df : Frame) (last : Row) (q : Timestamp × Row),
      (ffillAux last df)[0]? = some q →
      ∃ r, df[0]? = some r ∧ q = (r.1, List.zipWith ffillCell last r.2) := by
  intro df last q h
  cases df with
  | nil => simp [ffillAux] at h
  | cons p rest =>
    obtain ⟨t, r⟩ := p
    simp only [ffillAux, List.getElem?_cons_zero, Option.some.injEq] at h
    exact ⟨(t, r), by simp, h.symm⟩

/-- Each later row of a forward-filled frame is the zip of its raw row with
    the previous output row. -/
lemma ffillAux_getElem_succ :
    ∀ (df : Frame) (last : Row) (i : Nat) (q : Timestamp × Row),
      (ffillAux last df)[i + 1]? = some q →
      ∃ p r, (ffillAux last df)[i]? = some p ∧ df[i + 1]? = some r
        ∧ q = (r.1, List.zipWith ffillCell p.2 r.2) := by
  intro df
  induction df with
  | nil => intro last i q h; simp [ffillAux] at h
  | cons hd rest ih =>
    intro last i q h
    obtain ⟨t, r⟩ := hd
    cases i with
    | zero =>
      simp only [ffillAux, List.getElem?_cons_succ] at h
      obtain ⟨r', hr', hq⟩ := ffillAux_getElem_zero rest _ q h
      exact ⟨(t, List.zipWith ffillCell last r), r', by simp [ffillAux],
        by simpa using hr', by simpa using hq⟩
    | succ i =>
      simp only [ffillAux, List.getElem?_cons_succ] at h
      obtain ⟨p, r', hp, hr', hq⟩ := ih _ i q h
      exact ⟨p, r', by simp [ffillAux, hp], by simpa using hr', hq⟩

/-- Forward fill keeps every row at the width of the carried row. -/
lemma ffillAux_row_length :
    ∀ (df : Frame) (last : Row), (∀ p ∈ df, p.2.length = last.length) →
      ∀ q ∈ ffillAux last df, q.2.length = last.length := by
  intro df
  induction df with
  | nil => intro last _ q hq; simp [ffillAux] at hq
  | cons hd rest ih =>
    intro last hlen q hq
    obtain ⟨t, r⟩ := hd
    have hfl : (List.zipWith ffillCell last r).length = last.length := by
      rw [List.length_zipWith, hlen (t, r) (by simp), Nat.min_self]
    simp only [ffillAux, List.mem_cons] at hq
    rcases hq with rfl | hq
    · simpa using hfl
    · have := ih (List.zipWith ffillCell last r)
        (fun p hp => by rw [hfl]; exact hlen p (by simp [hp])) q hq
      rw [this, hfl]

/-- Forward-filling an all-NaN row of matching width reproduces the carried
    row. -/
lemma zipWith_ffill_all_na :
    ∀ (last r : Row), r.length = last.length → (∀ c ∈ r, c = Cell.na) →
      List.zipWith ffillCell last r = last := by
  intro last
  induction last with
  | nil => intro r _ _; simp
  | cons a as ih =>
    intro r hlen hna
    cases r with
    | nil => simp at hlen
    | cons c cs =>
      simp only [List.zipWith_cons_cons]
      rw [hna c (by simp), ffillCell, if_pos rfl,
        ih cs (by simpa using hlen) (fun c' hc' => hna c' (by simp [hc']))]

/-- Forward-filling on a NaN-free carried row yields NaN-free cells. -/
lemma zipWith_ffill_no_na :
    ∀ (as bs : Row), (∀ a ∈ as, a ≠ Cell.na) →
      ∀ c ∈ List.zipWith ffillCell as bs, c ≠ Cell.na := by
  intro as
  induction as with
  | nil => intro bs _ c hc; simp at hc
  | cons a as ih =>
    intro bs hna c hc
    cases bs with
    | nil => simp at hc
    | cons b bs =>
      simp only [List.zipWith_cons_cons, List.mem_cons] at hc
      rcases hc with rfl | hc
      · simp only [ffillCell]
        split
        · exact hna a (by simp)
        · next h => exact h
      · exact ih bs (fun a' ha' => hna a' (by simp [ha'])) c hc

/-- Once the carried row is NaN-free, no NaN ever appears again. -/
lemma ffillAux_no_na :
    ∀ (df : Frame) (last : Row), (∀ a ∈ last, a ≠ Cell.na) →
      ∀ q ∈ ffillAux last df, ∀ c ∈ q.2, c ≠ Cell.na := by
  intro df
  induction df with
  | nil => intro last _ q hq; simp [ffillAux] at hq
  | cons hd rest ih =>
    intro last hlast q hq
    obtain ⟨t, r⟩ := hd
    have hfilled : ∀ c ∈ List.zipWith ffillCell last r, c ≠ Cell.na :=
      zipWith_ffill_no_na last r hlast
    simp only [ffillAux, List.mem_cons] at hq
    rcases hq with rfl | hq
    · simpa using hfilled
    · exact ih _ hfilled q hq

/-- Every joined row is either a data row or the all-NaN filler row. -/
lemma mem_flatMap_join (axis : List Timestamp) (df : Frame) (width : Nat) :
    ∀ q ∈ axis.flatMap (joinRow df width),
      q ∈ df ∨ q.2 = List.replicate width Cell.na := by
  intro q hq
  rw [List.mem_flatMap] at hq
  obtain ⟨t, _, hq⟩ := hq
  rw [joinRow] at hq
  cases hf : df.filter (fun p => p.1 = t) with
  | nil =>
    rw [hf] at hq
    simp only [List.mem_singleton] at hq
    right
    rw [hq]
  | cons a as =>
    rw [hf] at hq
    left
    have hmem : q ∈ df.filter (fun p => p.1 = t) := by
      rw [hf]; exact hq
    exact (List.mem_filter.mp hmem).1

/-- The scenario's raw timestamps are the in-range hours minus the missing
    ones. -/
lemma scenario_keys :
    scenarioRaw.map Prod.fst
      = (List.range 15312).filter (fun t => decide (t ∉ scenarioMissing)) := by
  rw [scenarioRaw, List.map_map]
  have hcomp : (Prod.fst ∘ fun t : Nat => ((t, [Cell.num (Int.ofNat t)]) : Timestamp × Row))
      = fun t : Nat => t := rfl
  rw [hcomp, List.map_id']

lemma scenario_keys_nodup : (scenarioRaw.map Prod.fst).Nodup := by
  rw [scenario_keys]
  exact (List.nodup_range 15312).filter _

lemma scenario_keys_mem (t : Timestamp) :
    t ∈ scenarioRaw.map Prod.fst ↔ t < 15312 ∧ t ∉ scenarioMissing := by
  rw [scenario_keys, List.mem_filter, List.mem_range]
  simp

lemma scenario_sub : ∀ p ∈ scenarioRaw, p.1 ∈ date_range 0 15311 1 := by
  intro p hp
  rw [date_range_zero_one, List.mem_range]
  exact ((scenario_keys_mem p.1).mp (List.mem_map.mpr ⟨p, hp, rfl⟩)).1

lemma scenario_row (p : Timestamp × Row) (hp : p ∈ scenarioRaw) :
    p.2 = [Cell.num (Int.ofNat p.1)] := by
  rw [scenarioRaw] at hp
  obtain ⟨t, _, rfl⟩ := List.mem_map.mp hp
  rfl

lemma scenario_rows_nodup : (scenarioRaw.map Prod.snd).Nodup := by
  rw [scenarioRaw, List.map_map]
  refine List.Nodup.map ?_ ((List.nodup_range 15312).filter _)
  intro a b h
  simpa using h

lemma scenario_widths : ∀ p ∈ scenarioRaw, p.2.length = 1 := by
  intro p hp
  rw [scenario_row p hp]
  rfl

lemma scenario_dedup : drop_duplicates scenarioRaw = scenarioRaw :=
  dropDuplicatesAux_eq_self scenarioRaw [] scenario_rows_nodup (by simp)

/-- The scenario's Regularizer run, with the join unfolded over the axis. -/
lemma scenario_joined :
    regularize scenarioRaw 0 15311 1 1
      = ffill 1 (replaceEmpty ((date_range 0 15311 1).flatMap (joinRow scenarioRaw 1))) := by
  rw [regularize, scenario_dedup,
    outerJoin_eq_flatMap_axis _ _ _ (date_range_sorted _ _ _) scenario_sub]

lemma scenario_map_fst :
    (regularize scenarioRaw 0 15311 1 1).map Prod.fst = date_range 0 15311 1 :=
  regularize_keys scenarioRaw 0 15311 1 1 scenario_keys_nodup scenario_sub

lemma scenario_length : (regularize scenarioRaw 0 15311 1 1).length = 15312 := by
  have h := congrArg List.length scenario_map_fst
  rw [List.length_map, date_range_length 0 15311 1 (by omega)] at h
  simpa using h

/-- The joined scenario frame starts with the genuine hour-0 observation. -/
lemma scenario_head :
    ∃ rest, (date_range 0 15311 1).flatMap (joinRow scenarioRaw 1)
      = (0, [Cell.num 0]) :: rest := by
  have h0 : (0 : Timestamp) ∈ scenarioRaw.map Prod.fst :=
    (scenario_keys_mem 0).mpr (by decide)
  obtain ⟨p0, hp0, hp01⟩ := List.mem_map.mp h0
  have hp0eq : p0 = ((0 : Timestamp), [Cell.num 0]) := by
    rw [Prod.ext_iff, hp01]
    refine ⟨rfl, ?_⟩
    rw [scenario_row p0 hp0, hp01]
    rfl
  have hfilter : scenarioRaw.filter (fun p => p.1 = (0 : Timestamp))
      = [((0 : Timestamp), [Cell.num 0])] := by
    have h := filter_key_of_mem scenarioRaw scenario_keys_nodup p0 hp0
    rw [hp01] at h
    rw [h, hp0eq]
  refine ⟨((List.range 15311).map Nat.succ).flatMap (joinRow scenarioRaw 1), ?_⟩
  rw [date_range_zero_one, List.range_succ_eq_map]
  simp only [List.flatMap_cons]
  rw [show joinRow scenarioRaw 1 0 = [((0 : Timestamp), [Cell.num 0])] by
    simp [joinRow, hfilter], List.singleton_append]

/-- No NaN survives in the regularized scenario output. -/
lemma scenario_no_na :
    ∀ q ∈ regularize scenarioRaw 0 15311 1 1, ∀ c ∈ q.2, c ≠ Cell.na := by
  obtain ⟨rest, hjoined⟩ := scenario_head
  intro q hq c hc
  rw [scenario_joined, hjoined] at hq
  have h1 : replaceEmpty (((0 : Timestamp), [Cell.num 0]) :: rest)
      = ((0 : Timestamp), [Cell.num 0]) :: replaceEmpty rest := by
    simp [replaceEmpty, replaceEmptyCell]
  have h2 : ffill 1 (((0 : Timestamp), [Cell.num 0]) :: replaceEmpty rest)
      = ((0 : Timestamp), [Cell.num 0]) :: ffillAux [Cell.num 0] (replaceEmpty rest) := by
    simp [ffill, ffillAux, ffillCell, List.replicate]
  rw [h1, h2] at hq
  rcases List.mem_cons.mp hq with rfl | hq
  · simp only [List.mem_singleton] at hc
    rw [hc]
    decide
  · refine ffillAux_no_na (replaceEmpty rest) [Cell.num 0] ?_ q hq c hc
    intro a ha
    simp only [List.mem_singleton] at ha
    rw [ha]
    decide

/-- Rows of the joined, empty-replaced scenario frame all have width 1. -/
lemma scenario_J_widths :
    ∀ s ∈ replaceEmpty ((date_range 0 15311 1).flatMap (joinRow scenarioRaw 1)),
      s.2.length = 1 := by
  intro s hs
  obtain ⟨s0, hs0, hs0eq⟩ := List.mem_map.mp hs
  rcases mem_flatMap_join (date_range 0 15311 1) scenarioRaw 1 s0 hs0 with hmem | hfil
  · rw [← hs0eq]
    simpa using scenario_widths s0 hmem
  · rw [← hs0eq]
    simp [hfil]

/-- In the regularized scenario output, each missing hour's row carries the
    same cells as the row of the hour before it. -/
lemma scenario_gap (i : Nat) (hi : i + 1 < 15312) (hmiss : (i + 1) ∈ scenarioMissing) :
    ((regularize scenarioRaw 0 15311 1 1)[i + 1]?).map Prod.snd
      = ((regularize scenarioRaw 0 15311 1 1)[i]?).map Prod.snd := by
  have hout : regularize scenarioRaw 0 15311 1 1
      = ffillAux [Cell.na]
          (replaceEmpty ((date_range 0 15311 1).flatMap (joinRow scenarioRaw 1))) := by
    rw [scenario_joined]
    rfl
  have hJfst : (replaceEmpty ((date_range 0 15311 1).flatMap (joinRow scenarioRaw 1))).map
      Prod.fst = date_range 0 15311 1 := by
    rw [map_fst_replaceEmpty]
    exact flatMap_keys scenarioRaw 1 scenario_keys_nodup _
  have hlen : (regularize scenarioRaw 0 15311 1 1).length = 15312 := scenario_length
  obtain ⟨q, hq⟩ : ∃ q, (regularize scenarioRaw 0 15311 1 1)[i + 1]? = some q := by
    rw [List.getElem?_eq_getElem
      (by omega : i + 1 < (regularize scenarioRaw 0 15311 1 1).length)]
    exact ⟨_, rfl⟩
  have hq' := hq
  rw [hout] at hq'
  obtain ⟨p, r, hp, hr, hqpr⟩ := ffillAux_getElem_succ _ [Cell.na] i q hq'
  have hr1 : r.1 = i + 1 := by
    have h1 : ((replaceEmpty ((date_range 0 15311 1).flatMap
        (joinRow scenarioRaw 1))).map Prod.fst)[i + 1]? = some r.1 := by
      rw [List.getElem?_map, hr]
      rfl
    rw [hJfst, date_range_zero_one,
      List.getElem?_range (by omega : i + 1 < 15311 + 1)] at h1
    exact (Option.some.inj h1).symm
  have hrJ : r ∈ replaceEmpty ((date_range 0 15311 1).flatMap (joinRow scenarioRaw 1)) :=
    List.getElem?_mem hr
  obtain ⟨r0, hr0, hr0eq⟩ := List.mem_map.mp hrJ
  have hr01 : r0.1 = i + 1 := by
    rw [← hr0eq] at hr1
    simpa using hr1
  have hr0filler : r0.2 = List.replicate 1 Cell.na := by
    rcases mem_flatMap_join (date_range 0 15311 1) scenarioRaw 1 r0 hr0 with hmem | hfil
    · exfalso
      have hk : r0.1 ∈ scenarioRaw.map Prod.fst := List.mem_map.mpr ⟨r0, hmem, rfl⟩
      have h2 := ((scenario_keys_mem r0.1).mp hk).2
      rw [hr01] at h2
      exact h2 hmiss
    · exact hfil
  have hr2 : r.2 = List.replicate 1 Cell.na := by
    rw [← hr0eq]
    simp [hr0filler, replaceEmptyCell]
  have hplen : p.2.length = 1 := by
    have hw := ffillAux_row_length
      (replaceEmpty ((date_range 0 15311 1).flatMap (joinRow scenarioRaw 1))) [Cell.na]
      (fun s hs => by simpa using scenario_J_widths s hs)
    have hpmem : p ∈ ffillAux [Cell.na]
        (replaceEmpty ((date_range 0 15311 1).flatMap (joinRow scenarioRaw 1))) :=
      List.getElem?_mem hp
    simpa using hw p hpmem
  have hq2 : q.2 = p.2 := by
    rw [hqpr]
    show List.zipWith ffillCell p.2 r.2 = p.2
    rw [hr2]
    exact zipWith_ffill_all_na p.2 (List.replicate 1 Cell.na) (by simp [hplen]) (by simp)
  obtain ⟨p', hp'⟩ : ∃ p', (regularize scenarioRaw 0 15311 1 1)[i]? = some p' := by
    rw [List.getElem?_eq_getElem
      (by omega : i < (regularize scenarioRaw 0 15311 1 1).length)]
    exact ⟨_, rfl⟩
  have hpp' : p' = p := by
    have hp'' := hp'
    rw [hout, hp] at hp''
    exact (Option.some.inj hp'').symm
  rw [hq, hp']
  simp [hq2, hpp']

/-- C6 counterexample: for the stated scenario — one row per hour of
    2017-01-01 00:00 through 2018-09-30 23:00 (hours 0 through 15311 from the
    range start) except 3 missing hours — the Regularizer's output has 15312
    rows, the number of hours in the range, not 18609. -/
theorem scenario_row_count_not_18609 :
    (regularize scenarioRaw 0 15311 1 1).length = 15312
    ∧ (regularize scenarioRaw 0 15311 1 1).length ≠ 18609
    ∧ hourIndexFrom2017 2017 1 1 0 = 0
    ∧ hourIndexFrom2017 2018 9 30 23 = 15311 := by
  refine ⟨scenario_length, ?_, by decide, by decide⟩
  rw [scenario_length]
  decide

/-- C6 amended: for the reference scenario the Regularizer's output has
    exactly 15312 rows — one per hour of the range, whose bounds are hours 0
    and 15311 counted from 2017-01-01 00:00 — contains no NaN anywhere, its
    timestamps are the canonical hourly axis, and each of the three missing
    hours (1000, 5000, 10000) carries exactly the cells of the immediately
    preceding hour. -/
theorem scenario_regularized_complete :
    (regularize scenarioRaw 0 15311 1 1).length = 15312
    ∧ (regularize scenarioRaw 0 15311 1 1).all
        (fun q => q.2.all (fun c => !(c == Cell.na))) = true
    ∧ ((regularize scenarioRaw 0 15311 1 1)[1000]?).map Prod.snd
        = ((regularize scenarioRaw 0 15311 1 1)[999]?).map Prod.snd
    ∧ ((regularize scenarioRaw 0 15311 1 1)[5000]?).map Prod.snd
        = ((regularize scenarioRaw 0 15311 1 1)[4999]?).map Prod.snd
    ∧ ((regularize scenarioRaw 0 15311 1 1)[10000]?).map Prod.snd
        = ((regularize scenarioRaw 0 15311 1 1)[9999]?).map Prod.snd
    ∧ (regularize scenarioRaw 0 15311 1 1).map Prod.fst = date_range 0 15311 1
    ∧ hourIndexFrom2017 2018 9 30 23 = 15311 := by
  refine ⟨scenario_length, ?_, ?_, ?_, ?_, scenario_map_fst, by decide⟩
  · rw [List.all_eq_true]
    intro q hq
    rw [List.all_eq_true]
    intro c hc
    simpa using scenario_no_na q hq c hc
  · exact scenario_gap 999 (by omega) (by decide)
  · exact scenario_gap 4999 (by omega) (by decide)
  · exact scenario_gap 9999 (by omega) (by decide)
